import Mathlib

/-!
Verification of the security validation layer of the ArchIntel documentation
backend: path-traversal-safe path resolution (`services/security_utils.py`),
the allowlisting subprocess executor (`services/subprocess_security.py`), the
repository URL validator (`services/url_validator.py`), and the rate limiter
and session manager (`services/security_middleware.py`).

The Python code is shallowly embedded: strings are `List Char`, wall-clock
timestamps are `ℤ` (the source uses floats; only ordering and arithmetic on
timestamps matter to the verified properties), Python dicts are association
lists or functions, raised exceptions are `Except.error` carrying the message,
and the nondeterministic parts (session-id generation, `subprocess.run`) are
parameters or abstract markers.  Each definition mirrors one Python function
and is named after it.
-/

/-! ## Generic dictionary helpers (Python `dict` as an association list) -/

/-- Lookup in a Python dict modelled as an association list (keys unique). -/
def alookup {α : Type} (k : String) : List (String × α) → Option α
  | [] => none
  | (k', v) :: rest => if k = k' then some v else alookup k rest

/-- Python `d[k] = v`: replace the value at an existing key, else append. -/
def aset {α : Type} (k : String) (v : α) : List (String × α) → List (String × α)
  | [] => [(k, v)]
  | (k', v') :: rest => if k = k' then (k, v) :: rest else (k', v') :: aset k v rest

/-- Python `del d[k]`: drop the (unique) binding of `k`, if any. -/
def aremove {α : Type} (k : String) : List (String × α) → List (String × α)
  | [] => []
  | (k', v') :: rest => if k = k' then rest else (k', v') :: aremove k rest

/-- Decidable equality of `Except` results (for concrete evaluations). -/
instance {ε α : Type} [DecidableEq ε] [DecidableEq α] : DecidableEq (Except ε α) := fun a b =>
  match a, b with
  | .error x, .error y =>
    if h : x = y then .isTrue (congrArg Except.error h)
    else .isFalse (fun hc => h (by injection hc))
  | .error _, .ok _ => .isFalse (fun hc => Except.noConfusion hc)
  | .ok _, .error _ => .isFalse (fun hc => Except.noConfusion hc)
  | .ok x, .ok y =>
    if h : x = y then .isTrue (congrArg Except.ok h)
    else .isFalse (fun hc => h (by injection hc))

/-- Everything after the first occurrence of `sep` (`none` when absent):
Python `s.split(sep)[1:]` rejoined. -/
def dropThroughSub (sep : List Char) : List Char → Option (List Char)
  | [] => if sep.isEmpty then some [] else none
  | c :: rest =>
    if sep.isPrefixOf (c :: rest) then some ((c :: rest).drop sep.length)
    else dropThroughSub sep rest

/-- Everything before the next occurrence of `sep` (the whole list when
absent). -/
def takeUntilSub (sep : List Char) : List Char → List Char
  | [] => []
  | c :: rest => if sep.isPrefixOf (c :: rest) then [] else c :: takeUntilSub sep rest

/-! ## PathValidator (`services/security_utils.py`)

`sanitize_input` URL-decodes the input, strips control characters, rejects a
denylist of traversal patterns (matched case-insensitively), then checks the
remaining characters against the whitelist regex (see `validPathChar`) and
returns the stripped result.  `validate_path` resolves the base, sanitizes the relative
path, joins and lexically resolves the target, and requires the resolved
target to stay under the base.  The filesystem is modelled symlink-free, so
`Path.resolve` is lexical normalization and `is_symlink` is everywhere false;
the claims settled here are decided before any filesystem access. -/

/-- Hex digit test used by `urllib.parse.unquote` (`%xx` escapes, both cases). -/
def isHexDigitPy (c : Char) : Bool :=
  c.isDigit || ('a' ≤ c && c ≤ 'f') || ('A' ≤ c && c ≤ 'F')

/-- Numeric value of a hex digit. -/
def hexVal (c : Char) : ℕ :=
  if c.isDigit then c.toNat - 48 else if 'a' ≤ c then c.toNat - 87 else c.toNat - 55

/-- Model of `urllib.parse.unquote`: each valid `%xx` escape becomes the
character with code `xx`; invalid escapes are kept literally.  (CPython
additionally UTF-8-decodes runs of escaped bytes; for bytes below `0x80` —
the only ones the verified properties touch — the two agree, and escaped
bytes never swallow adjacent literal characters in either version.) -/
def unquoteChars : List Char → List Char
  | [] => []
  | '%' :: c1 :: c2 :: rest =>
    if isHexDigitPy c1 && isHexDigitPy c2 then
      Char.ofNat (16 * hexVal c1 + hexVal c2) :: unquoteChars rest
    else '%' :: unquoteChars (c1 :: c2 :: rest)
  | c :: rest => c :: unquoteChars rest

/-- `PathValidator.MALICIOUS_PATTERNS`: every entry of the source list is a
regex that matches a fixed literal string, searched case-insensitively. -/
def MALICIOUS_PATTERNS : List (List Char) :=
  ["../".toList, "..\\".toList,
   "%2e%2e/".toList, "%2e%2e\\".toList,
   "%252e%252e/".toList, "%252e%252e\\".toList,
   "..%2f".toList, "..%5c".toList,
   "~/".toList, "/root/".toList, "/etc/".toList, "/proc/".toList, "/sys/".toList]

/-- Lowercasing used to model `re.IGNORECASE` matching of the (all-lowercase)
pattern literals.  Python lowercases beyond ASCII; the patterns are ASCII. -/
def lowerChars (s : List Char) : List Char := s.map Char.toLower

/-- One character of the source's `VALID_PATH_PATTERN` whitelist regex:
letters, digits, dot, underscore — and, because the class ends with a dash
range from slash to backslash, the whole codepoint range `0x2F` through
`0x5C` (which also admits `:;<=>?@[`). -/
def validPathChar (c : Char) : Bool :=
  c.isAlpha || c.isDigit || c = '.' || c = '_' || (47 ≤ c.toNat && c.toNat ≤ 92)

/-- Python `str.strip()` on the already-control-free input: remove leading and
trailing spaces. -/
def pyStrip (l : List Char) : List Char :=
  ((l.dropWhile (fun c => c = ' ')).reverse.dropWhile (fun c => c = ' ')).reverse

/-- `PathValidator.sanitize_input`: URL-decode, drop control characters
(codepoint < 32), reject malicious patterns, enforce the character whitelist
(`re.match` of `^[...]+$` demands a nonempty all-valid string), and strip. -/
def sanitize_input (pathInput : List Char) : Except String (List Char) :=
  let decoded := unquoteChars pathInput
  let cleaned := decoded.filter (fun c => 32 ≤ c.toNat)
  if MALICIOUS_PATTERNS.any (fun p => decide (p <:+: lowerChars cleaned)) then
    .error "Invalid path contains malicious pattern"
  else if !(!cleaned.isEmpty && cleaned.all validPathChar) then
    .error "Path contains invalid characters"
  else .ok (pyStrip cleaned)

/-- Split a sanitized relative path on `/` into components. -/
def splitSlash (l : List Char) : List (List Char) := l.splitOn '/'

/-- Lexical resolution of path components over the symlink-free filesystem
model: `Path.resolve` collapses `.`, empty components, and `..` (which at the
root stays at the root, as in POSIX). -/
def resolveComponents (acc : List (List Char)) : List (List Char) → List (List Char)
  | [] => acc
  | comp :: rest =>
    if comp = [] then resolveComponents acc rest
    else if comp = ['.'] then resolveComponents acc rest
    else if comp = ['.', '.'] then resolveComponents acc.dropLast rest
    else resolveComponents (acc ++ [comp]) rest

/-- `PathValidator.validate_path base relative`.  `base` is the already
resolved base directory, given as its list of path components.  The source
sanitizes the relative path (any exception propagates as
`PathTraversalError`), returns the base for an empty or `.` input, joins
(`Path.__truediv__` discards `base` when the relative path is absolute),
resolves, and then requires `resolved.relative_to(base)` to succeed; the
symlink walk of `_check_symlink_security` finds no symlink in the symlink-free
model. -/
def validate_path (base : List (List Char)) (relativePath : List Char) :
    Except String (List (List Char)) :=
  match sanitize_input relativePath with
  | .error e => .error e
  | .ok r =>
    if r = [] ∨ r = ['.'] then .ok base
    else
      let resolvedTarget :=
        if r.head? = some '/' then resolveComponents [] (splitSlash r)
        else resolveComponents base (splitSlash r)
      if base <+: resolvedTarget then .ok resolvedTarget
      else .error "Path traversal detected"

/-! ## URLValidator (`services/url_validator.py`)

`validate_url` checks emptiness, length, a forbidden-pattern denylist, then
parses the URL with `urllib.parse.urlparse` and checks scheme, domain, path,
userinfo, embedded password, and path depth.  The CPython `urlsplit`
algorithm is embedded below (leading-control stripping, tab/CR/LF removal,
scheme detection, netloc/fragment/query splitting, and the netloc-derived
`username`/`password`/`hostname` properties); the stdlib's bracketed-host
(IPv6) validation is modelled by a simplified shape check, and the NFKC
netloc check — which only affects non-ASCII netlocs — as a no-op. -/

/-- A character allowed after the first one of a URL scheme. -/
def schemeChar (c : Char) : Bool :=
  c.isAlpha || c.isDigit || c = '+' || c = '-' || c = '.'

/-- Result of `urlparse`: the five components `validate_url` reads. -/
structure UrlParts where
  scheme : List Char
  netloc : List Char
  path : List Char
  query : List Char
  fragment : List Char
deriving DecidableEq

/-- Simplified model of the stdlib's `_check_bracketed_host`: the bracketed
text must look like an IPv6 (or dotted v4-in-v6) address.  No verified claim
exercises bracketed hosts; both model and stdlib reject the hosts appearing
in the proofs below identically. -/
def checkBracketedHost (b : List Char) : Bool :=
  !b.isEmpty && b.all (fun c => isHexDigitPy c || c = ':' || c = '.') && b.contains ':'

/-- CPython `urlsplit`: strip leading C0-control/space, drop every tab, CR
and LF, split off the scheme (first `:` after a valid scheme token), the
netloc (after `//`, up to `/`, `?` or `#`, with the IPv6 bracket checks),
then the fragment (first `#`) and the query (first `?`). -/
def urlsplitModel (url0 : List Char) : Except String UrlParts :=
  let url1 := url0.dropWhile (fun c => c.toNat ≤ 32)
  let url2 := url1.filter (fun c => !(c = '\t' || c = '\r' || c = '\n'))
  let pre := url2.takeWhile (fun c => c ≠ ':')
  let schemeOk := decide (pre.length < url2.length) && !pre.isEmpty &&
    (match pre with | c :: _ => c.isAlpha | [] => false) && pre.all schemeChar
  let scheme := if schemeOk then lowerChars pre else []
  let rest := if schemeOk then url2.drop (pre.length + 1) else url2
  let netloc := if "//".toList.isPrefixOf rest then
      (rest.drop 2).takeWhile (fun c => !(c = '/' || c = '?' || c = '#'))
    else []
  let rest2 := if "//".toList.isPrefixOf rest then (rest.drop 2).drop netloc.length else rest
  if (('[' ∈ netloc) ∧ (']' ∉ netloc)) ∨ ((']' ∈ netloc) ∧ ('[' ∉ netloc)) then
    .error "Invalid IPv6 URL"
  else if ('[' ∈ netloc) ∧ (']' ∈ netloc) ∧
      !checkBracketedHost (((netloc.dropWhile (fun c => c ≠ '[')).drop 1).takeWhile (fun c => c ≠ ']')) then
    .error "invalid bracketed host"
  else
    let rest3 := if '#' ∈ rest2 then rest2.takeWhile (fun c => c ≠ '#') else rest2
    let fragment := if '#' ∈ rest2 then (rest2.dropWhile (fun c => c ≠ '#')).drop 1 else []
    let path0 := if '?' ∈ rest3 then rest3.takeWhile (fun c => c ≠ '?') else rest3
    let query := if '?' ∈ rest3 then (rest3.dropWhile (fun c => c ≠ '?')).drop 1 else []
    .ok ⟨scheme, netloc, path0, query, fragment⟩

/-- CPython `_splitparams`: drop a `;params` suffix from the last path
segment (the params component itself is unused by the validator). -/
def splitParamsChars (p : List Char) : List Char :=
  if '/' ∈ p then
    let tailSeg := (p.reverse.takeWhile (fun c => c ≠ '/')).reverse
    if ';' ∈ tailSeg then
      p.take (p.length - tailSeg.length) ++ tailSeg.takeWhile (fun c => c ≠ ';')
    else p
  else if ';' ∈ p then p.takeWhile (fun c => c ≠ ';') else p

/-- CPython `urlparse`: `urlsplit` plus params splitting on the path. -/
def urlparseModel (url : List Char) : Except String UrlParts :=
  match urlsplitModel url with
  | .error e => .error e
  | .ok p => .ok ⟨p.scheme, p.netloc, splitParamsChars p.path, p.query, p.fragment⟩

/-- The userinfo part of a netloc: everything before the last `@`, if any
(CPython `netloc.rpartition` at the at-sign). -/
def userinfoOf (netloc : List Char) : Option (List Char) :=
  if '@' ∈ netloc then
    some (netloc.take (netloc.length - (netloc.reverse.takeWhile (fun c => c ≠ '@')).length - 1))
  else none

/-- The host-and-port part of a netloc: everything after the last `@`. -/
def hostinfoOf (netloc : List Char) : List Char :=
  if '@' ∈ netloc then (netloc.reverse.takeWhile (fun c => c ≠ '@')).reverse else netloc

/-- CPython `SplitResult.username`: userinfo before its first `:`. -/
def usernameOf (netloc : List Char) : Option (List Char) :=
  (userinfoOf netloc).map (fun ui => ui.takeWhile (fun c => c ≠ ':'))

/-- CPython `SplitResult.password`: userinfo after its first `:`, if the
userinfo contains one (possibly the empty string). -/
def passwordOf (netloc : List Char) : Option (List Char) :=
  (userinfoOf netloc).bind (fun ui =>
    if ':' ∈ ui then some ((ui.dropWhile (fun c => c ≠ ':')).drop 1) else none)

/-- CPython `SplitResult.hostname`: bracketed content if the host is
bracketed, else the hostinfo up to the first `:`; lowercased, `none` when
empty. -/
def hostnameOf (netloc : List Char) : Option (List Char) :=
  let hi := hostinfoOf netloc
  let h := if '[' ∈ hi then ((hi.dropWhile (fun c => c ≠ '[')).drop 1).takeWhile (fun c => c ≠ ']')
    else hi.takeWhile (fun c => c ≠ ':')
  if h.isEmpty then none else some (lowerChars h)

/-- The fixed-literal entries of `URLValidationConfig.FORBIDDEN_PATTERNS`:
each regex in the source list other than the two `x.*x` ones matches exactly
one literal string once regex escaping is removed. -/
def FORBIDDEN_URL_LITERALS : List (List Char) :=
  ["&".toList, "|".toList, ";".toList, "$(".toList, "`".toList, ">".toList, "<".toList,
   "&&".toList, "||".toList,
   "../".toList, "%2e%2e%2f".toList, "%2e%2e/".toList,
   "..\\".toList, "%2e%2e%5c".toList, "%2e%2e\\".toList,
   "javascript:".toList, "data:".toList, "file:".toList, "ftp:".toList]

/-- `re.search` of `c.*c`: two occurrences of `c` with no newline between
them, i.e. some newline-free segment holds at least two `c`s. -/
def dotStarPair (c : Char) (s : List Char) : Bool :=
  (s.splitOn '\n').any (fun seg => 2 ≤ (seg.filter (fun x => x = c)).length)

/-- `URLValidator._contains_forbidden_patterns`: case-insensitive search of
every forbidden pattern over the lowercased URL. -/
def contains_forbidden_patterns (url : List Char) : Bool :=
  let low := lowerChars url
  FORBIDDEN_URL_LITERALS.any (fun p => decide (p <:+: low)) ||
    dotStarPair '@' low || dotStarPair '#' low

/-- `URLValidationConfig.ALLOWED_SCHEMES`. -/
def ALLOWED_SCHEMES : List (List Char) := ["https".toList, "ssh".toList, "git".toList]

/-- `URLValidationConfig.ALLOWED_DOMAINS`. -/
def ALLOWED_DOMAINS : List (List Char) :=
  ["github.com".toList, "gitlab.com".toList, "bitbucket.org".toList,
   "gitlab.internal.company.com".toList, "github.company.com".toList]

/-- `URLValidator._validate_domain`: hostname must be present and, after
lowercasing and stripping trailing dots, equal an allowed domain or end in
`.` followed by one. -/
def validate_domain (hostname : Option (List Char)) : Bool :=
  match hostname with
  | none => false
  | some hn0 =>
    let hn := ((lowerChars hn0).reverse.dropWhile (fun c => c = '.')).reverse
    decide (hn ∈ ALLOWED_DOMAINS) ||
      ALLOWED_DOMAINS.any (fun d => ('.' :: d).isSuffixOf hn || hn = d)

/-- A character of `ALLOWED_PATH_PATTERN`: letters, digits, dot, underscore,
slash, dash (here the final dash of the class is a literal member). -/
def urlPathChar (c : Char) : Bool :=
  c.isAlpha || c.isDigit || c = '.' || c = '_' || c = '/' || c = '-'

/-- `URLValidator._validate_path`: empty is fine; otherwise the whole path
must match the character whitelist and no `/`-segment may be `..` or a
`%2e%2e`-prefixed segment of length at least 6. -/
def validate_path_url (p : List Char) : Bool :=
  if p.isEmpty then true
  else if !(!p.isEmpty && p.all urlPathChar) then false
  else (p.splitOn '/').all (fun seg =>
    !(seg = "..".toList || ("%2e%2e".toList.isPrefixOf seg && 6 ≤ seg.length)))

/-- A character of `ALLOWED_USERINFO_PATTERN` (`a-z`, `A-Z`, digits, `._-`). -/
def userinfoChar (c : Char) : Bool :=
  c.isAlpha || c.isDigit || c = '.' || c = '_' || c = '-'

/-- `URLValidator._validate_userinfo`. -/
def validate_userinfo (u : List Char) : Bool :=
  if u.isEmpty then true else !u.isEmpty && u.all userinfoChar

/-- Python truthiness of an optional string. -/
def optTruthy : Option (List Char) → Bool
  | none => false
  | some l => !l.isEmpty

/-- `URLValidator.validate_url`: the full check chain; `True` on success,
`URLValidationError` (modelled as `.error` with the message) otherwise. -/
def validate_url (url : List Char) : Except String Bool :=
  if url.isEmpty then .error "Empty URL not allowed"
  else if 2000 < url.length then .error "URL too long"
  else if contains_forbidden_patterns url then .error "URL contains forbidden patterns"
  else match urlparseModel url with
  | .error _ => .error "Invalid URL format"
  | .ok parsed =>
    if !ALLOWED_SCHEMES.contains parsed.scheme then .error "Scheme not allowed"
    else if !validate_domain (hostnameOf parsed.netloc) then .error "Domain not in allowed domains"
    else if !validate_path_url parsed.path then .error "Path contains invalid characters"
    else if optTruthy (usernameOf parsed.netloc) &&
        !validate_userinfo ((usernameOf parsed.netloc).getD []) then
      .error "Username contains invalid characters"
    else if optTruthy (passwordOf parsed.netloc) then .error "URLs with passwords are not allowed"
    else if 10 < ((parsed.path.splitOn '/').filter (fun seg => !seg.isEmpty)).length then
      .error "URL path too deep"
    else .ok true

/-! ## SecureSubprocess (`services/subprocess_security.py`)

`validate_command` checks (in source order): non-emptiness, timeout bound,
command-line length, the invocation rate limit (which mutates
`command_history`), binary and subcommand membership in
`SubprocessSecurityConfig.ALLOWED_COMMANDS`, and then `_validate_arguments`.
`execute` wraps any `CommandValidationError` as a `SecurityError` and reaches
`subprocess.run` only when validation passed; the model records how many
processes were spawned.  Commands are argument vectors (the string form,
which the source tokenizes with `shlex.split`, is not modelled). -/

/-- Per-subcommand entry of the `ALLOWED_COMMANDS` table. -/
structure SubcmdCfg where
  min_args : ℕ
  max_args : ℕ
  allowed_options : List String
deriving DecidableEq

/-- `SubprocessSecurityConfig.ALLOWED_COMMANDS`. -/
def ALLOWED_COMMANDS : List (String × List (String × SubcmdCfg)) :=
  [("git",
    [("clone", ⟨3, 5, ["--depth", "--single-branch", "--branch", "--origin"]⟩),
     ("fetch", ⟨1, 3, ["--depth", "--single-branch", "--prune"]⟩),
     ("pull", ⟨0, 2, ["--rebase", "--ff-only"]⟩)])]

/-- `SubprocessSecurityConfig.MAX_TIMEOUT`. -/
def MAX_TIMEOUT : ℕ := 300

/-- `SubprocessSecurityConfig.MAX_COMMAND_LENGTH`. -/
def MAX_COMMAND_LENGTH : ℕ := 1000

/-- `SubprocessSecurityConfig.RATE_LIMIT_WINDOW` and `RATE_LIMIT_MAX`. -/
def RATE_LIMIT_WINDOW : ℤ := 60

/-- Commands allowed per rate-limit window. -/
def RATE_LIMIT_MAX : ℕ := 10

/-- The dangerous shell metacharacter fragments scanned for in every
argument. -/
def DANGEROUS_PATTERNS : List (List Char) :=
  ["&".toList, "|".toList, ";".toList, "$(".toList, "`".toList,
   ">".toList, "<".toList, "&&".toList, "||".toList]

/-- Does the argument contain any dangerous fragment? -/
def dangerousArg (arg : String) : Bool :=
  DANGEROUS_PATTERNS.any (fun p => decide (p <:+: arg.toList))

/-- The domains accepted by `SecureSubprocess._validate_git_url`. -/
def GIT_URL_DOMAINS : List String := ["github.com", "gitlab.com", "bitbucket.org"]

/-- A character of the repository part of the git-URL regexes (letters,
digits, `.`, `_`, `/`, `-`). -/
def gitUrlBodyChar (c : Char) : Bool :=
  c.isAlpha || c.isDigit || c = '.' || c = '_' || c = '/' || c = '-'

/-- Full match of the repository tail of both git-URL regexes: at least one
whitelisted character followed by the literal `.git` ending the string. -/
def gitUrlTailOk (r : List Char) : Bool :=
  decide (5 ≤ r.length) && ".git".toList.isSuffixOf r &&
    (r.take (r.length - 4)).all gitUrlBodyChar

/-- `re.match` of the HTTPS clone-URL pattern: `https://`, one of the three
domains, `/`, then a `.git`-terminated repository path. -/
def gitHttpsMatch (url : List Char) : Bool :=
  GIT_URL_DOMAINS.any (fun d =>
    let pre := ("https://" ++ d ++ "/").toList
    pre.isPrefixOf url && gitUrlTailOk (url.drop pre.length))

/-- `re.match` of the SSH clone-URL pattern: `git@`, a domain, `:`, then a
`.git`-terminated repository path. -/
def gitSshMatch (url : List Char) : Bool :=
  GIT_URL_DOMAINS.any (fun d =>
    let pre := ("git@" ++ d ++ ":").toList
    pre.isPrefixOf url && gitUrlTailOk (url.drop pre.length))

/-- The domain extraction of `_validate_git_url`: after the last `@` and
before the first `:` or `/` when an `@` is present, else the text between
`://` and the next `/` (an out-of-range index is an unhandled Python
`IndexError`, modelled as `none`; it is unreachable after a regex match). -/
def extractGitDomain (url : List Char) : Option (List Char) :=
  if '@' ∈ url then
    some ((((url.reverse.takeWhile (fun c => c ≠ '@')).reverse).takeWhile
      (fun c => c ≠ ':')).takeWhile (fun c => c ≠ '/'))
  else
    match dropThroughSub "://".toList url with
    | some rest => some ((takeUntilSub "://".toList rest).takeWhile (fun c => c ≠ '/'))
    | none => none

/-- `SecureSubprocess._validate_git_url`: the URL must match one of the two
regexes and its extracted domain must be in the allowlist. -/
def validate_git_url (url : String) : Except String Unit :=
  if !(gitHttpsMatch url.toList || gitSshMatch url.toList) then
    .error "Invalid git URL format"
  else match extractGitDomain url.toList with
  | none => .error "IndexError"
  | some d =>
    if (GIT_URL_DOMAINS.map String.toList).contains d then .ok ()
    else .error "Domain not in allowed domains"

/-- The argument loop of `_validate_arguments`, from index 2: dangerous
fragments reject; index 3 of a `git clone` is checked as a git URL; `--`
options must be in the subcommand's allowlist. -/
def argLoop (command sub : String) (cfg : SubcmdCfg) : ℕ → List String → Except String Unit
  | _, [] => .ok ()
  | i, arg :: rest =>
    if dangerousArg arg then .error "Dangerous pattern detected in argument"
    else match (if command = "git" ∧ sub = "clone" ∧ i = 3 then validate_git_url arg else .ok ()) with
    | .error e => .error e
    | .ok _ =>
      if "--".toList.isPrefixOf arg.toList ∧ arg ∉ cfg.allowed_options then
        .error "Option not allowed"
      else argLoop command sub cfg (i + 1) rest

/-- `SecureSubprocess._validate_arguments`: nothing to do for bare binaries;
otherwise bound the positional argument count by the table entry and run the
argument loop.  (The table lookups were already checked by the caller; a
failed lookup would be a Python `KeyError`.) -/
def validate_arguments (command : String) (cmdList : List String) : Except String Unit :=
  match cmdList with
  | _ :: sub :: args =>
    match alookup command ALLOWED_COMMANDS with
    | none => .error "KeyError"
    | some subs =>
      match alookup sub subs with
      | none => .error "KeyError"
      | some cfg =>
        if args.length < cfg.min_args ∨ cfg.max_args < args.length then
          .error "Invalid argument count"
        else argLoop command sub cfg 2 args
  | _ => .ok ()

/-- `SecureSubprocess._check_rate_limit` as a function of the
`command_history` list and the current time: prune entries older than the
window (this in-place assignment survives even when the limit check then
raises), and append the current time otherwise. -/
def check_rate_limit (hist : List ℤ) (now : ℤ) : Except String Unit × List ℤ :=
  let pruned := hist.filter (fun t => decide (now - RATE_LIMIT_WINDOW < t))
  if RATE_LIMIT_MAX ≤ pruned.length then (.error "Rate limit exceeded", pruned)
  else (.ok (), pruned ++ [now])

/-- Python truthiness of the optional timeout: `if timeout and timeout > MAX`. -/
def timeoutTooHigh (timeout : Option ℕ) : Bool :=
  match timeout with
  | none => false
  | some t => decide (t ≠ 0) && decide (MAX_TIMEOUT < t)

/-- The history-independent tail of `validate_command`: the emptiness,
binary-allowlist and subcommand-allowlist checks followed by
`_validate_arguments`. -/
def validate_structure (cmd : List String) : Except String Unit :=
  match cmd with
  | [] => .error "Empty command list not allowed"
  | binary :: rest =>
    match alookup binary ALLOWED_COMMANDS with
    | none => .error "Command not in allowed commands"
    | some subs =>
      match rest with
      | [] => validate_arguments binary cmd
      | sub :: _ =>
        match alookup sub subs with
        | none => .error "Subcommand not allowed"
        | some _ => validate_arguments binary cmd

/-- `SecureSubprocess.validate_command` on an argument-vector command,
returning the validation outcome together with the updated
`command_history`. -/
def validate_command (cmd : List String) (timeout : Option ℕ) (hist : List ℤ) (now : ℤ) :
    Except String Unit × List ℤ :=
  if cmd.isEmpty then (.error "Empty command not allowed", hist)
  else if timeoutTooHigh timeout then (.error "Timeout too high", hist)
  else if MAX_COMMAND_LENGTH < (String.intercalate " " cmd).length then
    (.error "Command too long", hist)
  else
    match check_rate_limit hist now with
    | (.error e, h) => (.error e, h)
    | (.ok _, h) => (validate_structure cmd, h)

/-- Outcome of `SecureSubprocess.execute`: how many processes were spawned,
the result (errors carry the `SecurityError` message), and the final
`command_history`. -/
structure ExecOutcome where
  spawns : ℕ
  result : Except String Unit
  hist : List ℤ
deriving DecidableEq

/-- `SecureSubprocess.execute`: validate, and only on success reach the
`subprocess.run` call site (counted as one spawned process; the child's
actual exit status is irrelevant to the verified claims).  A
`CommandValidationError` is re-raised as `SecurityError`. -/
def executeCmd (cmd : List String) (timeout : Option ℕ) (hist : List ℤ) (now : ℤ) :
    ExecOutcome :=
  match validate_command cmd timeout hist now with
  | (.error e, h) => ⟨0, .error ("Security violation or execution error: " ++ e), h⟩
  | (.ok _, h) => ⟨1, .ok (), h⟩

/-- `execute_git_clone repo_url target_dir timeout`: builds
`['git', 'clone', '--depth', '1', repo_url, target_dir]` and hands it to
`execute`. -/
def execute_git_clone (repoUrl targetDir : String) (timeout : ℕ) (hist : List ℤ) (now : ℤ) :
    ExecOutcome :=
  executeCmd ["git", "clone", "--depth", "1", repoUrl, targetDir] (some timeout) hist now

/-! ## Environment sanitization (`SecureSubprocess._sanitize_environment`)

The source copies the whole of `os.environ`, then folds the caller-supplied
overrides in, keeping only string values shorter than 1000 characters whose
key is in the small allowlist, and finally forces the two git-related
security defaults. -/

/-- `_sanitize_environment`'s allowlist of caller-suppliable keys. -/
def SAFE_ENV_KEYS : List String := ["PATH", "HOME", "USER", "LANG", "LC_ALL"]

/-- `SecureSubprocess._sanitize_environment osEnv env`: `osEnv` models
`os.environ` (copied wholesale), `env` the caller-supplied overrides (all
values are strings in the typed model, so the `isinstance` test is always
true). -/
def sanitize_environment (osEnv : List (String × String)) (env : Option (List (String × String))) :
    List (String × String) :=
  let safe := osEnv
  let safe := match env with
    | none => safe
    | some e => e.foldl (fun acc kv =>
        if kv.1 ∈ SAFE_ENV_KEYS ∧ kv.2.length < 1000 then aset kv.1 kv.2 acc else acc) safe
  aset "GIT_SSH_COMMAND" "ssh -o StrictHostKeyChecking=no" (aset "GIT_TERMINAL_PROMPT" "0" safe)

/-! ## RateLimiter (`services/security_middleware.py`)

A sliding-window limiter per identifier: `is_rate_limited` first honours an
unexpired block (deleting an expired one), then prunes the identifier's
attempt list to the trailing window, blocks when the pruned count reaches
`max_attempts`, and otherwise admits.  `record_attempt` appends the current
time for failed attempts only. -/

/-- Constructor arguments of `RateLimiter`. -/
structure RLConfig where
  window_size : ℤ
  max_attempts : ℕ
  block_duration : ℤ
deriving DecidableEq

/-- The limiter's mutable state: `attempts` (a `defaultdict(list)`) and
`blocks` (a plain dict). -/
structure RLState where
  attempts : String → List ℤ
  blocks : List (String × ℤ)

/-- A fresh `RateLimiter`'s state. -/
def freshRL : RLState := ⟨fun _ => [], []⟩

/-- `RateLimiter.is_rate_limited identifier endpoint` at time `now`:
returns `(limited, retry_after)` and the updated state.  `int()` truncation
of the positive remaining time is integer arithmetic in the ℤ-time model. -/
def is_rate_limited (cfg : RLConfig) (st : RLState) (identifier : String) (now : ℤ) :
    (Bool × Option ℤ) × RLState :=
  match alookup identifier st.blocks with
  | some blockedUntil =>
    if now < blockedUntil then ((true, some (blockedUntil - now + 1)), st)
    else
      let st1 : RLState := ⟨st.attempts, aremove identifier st.blocks⟩
      let pruned := (st1.attempts identifier).filter (fun t => decide (now - cfg.window_size < t))
      let st2 : RLState := ⟨fun i => if i = identifier then pruned else st1.attempts i, st1.blocks⟩
      if cfg.max_attempts ≤ pruned.length then
        ((true, some cfg.block_duration),
         ⟨st2.attempts, aset identifier (now + cfg.block_duration) st2.blocks⟩)
      else ((false, none), st2)
  | none =>
    let pruned := (st.attempts identifier).filter (fun t => decide (now - cfg.window_size < t))
    let st2 : RLState := ⟨fun i => if i = identifier then pruned else st.attempts i, st.blocks⟩
    if cfg.max_attempts ≤ pruned.length then
      ((true, some cfg.block_duration),
       ⟨st2.attempts, aset identifier (now + cfg.block_duration) st2.blocks⟩)
    else ((false, none), st2)

/-- `RateLimiter.record_attempt`: failed attempts append their timestamp. -/
def record_attempt (st : RLState) (identifier : String) (success : Bool) (now : ℤ) : RLState :=
  if success then st
  else ⟨fun i => if i = identifier then st.attempts i ++ [now] else st.attempts i, st.blocks⟩

/-! ## SessionManager (`services/security_middleware.py`)

Sessions live in a dict keyed by session id, with a per-user id set kept in
lockstep.  `create_session` evicts oldest-first when the per-user cap is
reached; `validate_session` checks activity, timeout, and stored IP (the
stored user agent is read by nothing); `invalidate_session` removes a
session from both structures.  Session ids come from the caller in the
model (the source draws them from `uuid4`/`time`/`sha256`). -/

/-- Constructor arguments of `SessionManager`. -/
structure SMConfig where
  session_timeout : ℤ
  max_sessions_per_user : ℕ
deriving DecidableEq

/-- One session record. -/
structure Session where
  user_id : String
  created_at : ℤ
  last_activity : ℤ
  ip : String
  user_agent : String
  active : Bool
deriving DecidableEq

/-- The manager's state: the session dict and the per-user id sets
(a `defaultdict(set)`, modelled as insertion-ordered duplicate-free lists). -/
structure SMState where
  sessions : List (String × Session)
  user_sessions : String → List String

/-- `SessionManager.invalidate_session`: pop the session and drop its id
from its user's set (a missing id is ignored, as in the source). -/
def invalidate_session (st : SMState) (sessionId : String) : SMState :=
  match alookup sessionId st.sessions with
  | none => st
  | some sd =>
    let us := st.user_sessions sd.user_id
    let us' := if sessionId ∈ us then us.erase sessionId else us
    ⟨aremove sessionId st.sessions,
     fun u => if u = sd.user_id then us' else st.user_sessions u⟩

/-- Insertion by ascending key, as used to model Python's `sorted`. -/
def insertByKey (key : String → ℤ) (x : String) : List String → List String
  | [] => [x]
  | y :: ys => if key x ≤ key y then x :: y :: ys else y :: insertByKey key x ys

/-- Sorting by ascending key: the session ids ordered by `created_at`
(`sorted(self.user_sessions[user_id], key=...)`; the verified claims assume
distinct creation times, under which every correct sort agrees). -/
def sortByKey (key : String → ℤ) : List String → List String
  | [] => []
  | x :: xs => insertByKey key x (sortByKey key xs)

/-- The `while` loop of `_cleanup_old_sessions` over the pre-sorted id list:
keep invalidating the next-oldest id while the user still has at least
`max_sessions_per_user` sessions.  (Exhausting the list while still over the
cap would be an infinite `pop` loop on an empty list in the source; it is
unreachable from a synchronized state.) -/
def evictLoop (cfg : SMConfig) (u : String) : SMState → List String → SMState
  | st, [] => st
  | st, sid :: rest =>
    if cfg.max_sessions_per_user ≤ (st.user_sessions u).length then
      evictLoop cfg u (invalidate_session st sid) rest
    else st

/-- The sort key of `_cleanup_old_sessions`:
`lambda sid: self.sessions[sid]["created_at"]` (a missing id would be a
Python `KeyError`, modelled as creation time 0; the synchronization
invariant makes it unreachable). -/
def session_created_key (st : SMState) (sid : String) : ℤ :=
  match alookup sid st.sessions with
  | some sd => sd.created_at
  | none => 0

/-- `SessionManager._cleanup_old_sessions`: sort the user's session ids by
creation time (looked up in the session dict at sort time) and evict
oldest-first while over the cap. -/
def cleanup_old_sessions (cfg : SMConfig) (st : SMState) (u : String) : SMState :=
  evictLoop cfg u st (sortByKey (session_created_key st) (st.user_sessions u))

/-- `SessionManager.create_session` with the fresh session id supplied by
the environment: clean up when the user is at (or over) the cap, then store
the record and add the id to the user's set. -/
def create_session (cfg : SMConfig) (st : SMState) (userId ip userAgent : String)
    (sessionId : String) (now : ℤ) : SMState :=
  let st1 := if cfg.max_sessions_per_user ≤ (st.user_sessions userId).length then
    cleanup_old_sessions cfg st userId else st
  let sd : Session := ⟨userId, now, now, ip, userAgent, true⟩
  ⟨aset sessionId sd st1.sessions,
   fun u => if u = userId then
      (if sessionId ∈ st1.user_sessions userId then st1.user_sessions userId
       else st1.user_sessions userId ++ [sessionId])
    else st1.user_sessions u⟩

/-- `SessionManager.validate_session`: unknown id → `None`; inactive →
`None`; timed out → invalidate and `None`; stored-IP mismatch → log a
hijack attempt and `None` (the state is left untouched and the stored user
agent is never consulted); otherwise refresh `last_activity` and return the
session. -/
def validate_session (cfg : SMConfig) (st : SMState) (sessionId ip userAgent : String)
    (now : ℤ) : Option Session × SMState :=
  match alookup sessionId st.sessions with
  | none => (none, st)
  | some sd =>
    if sd.active = false then (none, st)
    else if cfg.session_timeout < now - sd.last_activity then
      (none, invalidate_session st sessionId)
    else if sd.ip ≠ ip then (none, st)
    else
      let sd' : Session := ⟨sd.user_id, sd.created_at, now, sd.ip, sd.user_agent, sd.active⟩
      (some sd', ⟨aset sessionId sd' st.sessions, st.user_sessions⟩)

/-! ## Lemmas about URL decoding -/

/-- A non-escape character is emitted literally. -/
theorem unquote_cons_ne (c : Char) (l : List Char) (h : c ≠ '%') :
    unquoteChars (c :: l) = c :: unquoteChars l := by
  rw [unquoteChars.eq_def]
  split
  · simp_all
  · rename_i c1 c2 rest heq
    injection heq with h1 _
    exact absurd h1 h
  · rename_i c' rest' hno heq
    injection heq with h1 h2
    subst h1; subst h2
    rfl

/-- A valid escape is decoded. -/
theorem unquote_hex (c1 c2 : Char) (l : List Char)
    (h : (isHexDigitPy c1 && isHexDigitPy c2) = true) :
    unquoteChars ('%' :: c1 :: c2 :: l) =
      Char.ofNat (16 * hexVal c1 + hexVal c2) :: unquoteChars l := by
  rw [unquoteChars.eq_def]
  split
  · simp_all
  · rename_i c1' c2' rest' heq
    injection heq with _ h2
    injection h2 with h2 h3
    injection h3 with h3 h4
    subst h2; subst h3; subst h4
    rw [if_pos h]
  · rename_i c' rest' hno heq
    injection heq with h1 h2
    exact absurd (hno c1 c2 l h1.symm h2.symm) (fun hf => hf)

/-- An invalid escape keeps its percent sign and rescans from the next
character. -/
theorem unquote_nothex (c1 c2 : Char) (l : List Char)
    (h : (isHexDigitPy c1 && isHexDigitPy c2) = false) :
    unquoteChars ('%' :: c1 :: c2 :: l) = '%' :: unquoteChars (c1 :: c2 :: l) := by
  rw [unquoteChars.eq_def]
  split
  · simp_all
  · rename_i c1' c2' rest' heq
    injection heq with _ h2
    injection h2 with h2 h3
    injection h3 with h3 h4
    subst h2; subst h3; subst h4
    rw [if_neg (by simp [h])]
  · rename_i c' rest' hno heq
    injection heq with h1 h2
    exact absurd (hno c1 c2 l h1.symm h2.symm) (fun hf => hf)

/-- A percent sign followed by a non-hex-digit character is emitted
literally, whatever follows. -/
theorem unquote_pct_stuck (c0 : Char) (l : List Char) (hc0 : isHexDigitPy c0 = false) :
    unquoteChars ('%' :: c0 :: l) = '%' :: unquoteChars (c0 :: l) := by
  cases l with
  | nil =>
    rw [unquoteChars.eq_def]
    split
    · simp_all
    · rename_i c1 c2 rest heq
      injection heq with _ h2
      injection h2 with h2 h3
      simp_all
    · rename_i c' rest' hno heq
      injection heq with h1 h2
      subst h1; subst h2
      rfl
  | cons x xs =>
    exact unquote_nothex c0 x xs (by rw [hc0]; rfl)

/-- Decoding a string that contains a marked position whose character is not
a hex digit splits there: no escape can reach across the marker, because an
escape needs its two trailing characters to be hex digits. -/
theorem unquote_shift (c0 : Char) (hc0 : isHexDigitPy c0 = false) (s b : List Char) :
    ∀ (n : ℕ) (a : List Char), a.length ≤ n →
      ∃ p, unquoteChars (a ++ c0 :: (s ++ b)) = p ++ unquoteChars (c0 :: (s ++ b)) := by
  intro n
  induction n with
  | zero =>
    intro a ha
    have ha0 : a = [] := List.length_eq_zero.mp (Nat.le_zero.mp ha)
    subst ha0
    exact ⟨[], by simp⟩
  | succ n ih =>
    intro a ha
    rcases a with _ | ⟨c, a1⟩
    · exact ⟨[], by simp⟩
    by_cases hc : c = '%'
    · subst hc
      rcases a1 with _ | ⟨c1, a2⟩
      · refine ⟨['%'], ?_⟩
        show unquoteChars ('%' :: (c0 :: (s ++ b))) = ['%'] ++ unquoteChars (c0 :: (s ++ b))
        rw [unquote_pct_stuck c0 _ hc0]
        rfl
      rcases a2 with _ | ⟨c2, a3⟩
      · have hguard : (isHexDigitPy c1 && isHexDigitPy c0) = false := by
          rw [hc0]; exact Bool.and_false _
        obtain ⟨p, hp⟩ := ih [c1] (by simp at ha ⊢; omega)
        refine ⟨'%' :: p, ?_⟩
        show unquoteChars ('%' :: c1 :: c0 :: (s ++ b)) = ('%' :: p) ++ unquoteChars (c0 :: (s ++ b))
        rw [unquote_nothex c1 c0 _ hguard]
        have hp' : unquoteChars (c1 :: c0 :: (s ++ b)) = p ++ unquoteChars (c0 :: (s ++ b)) := hp
        rw [hp']
        rfl
      · by_cases hx : (isHexDigitPy c1 && isHexDigitPy c2) = true
        · obtain ⟨p, hp⟩ := ih a3 (by simp at ha ⊢; omega)
          refine ⟨Char.ofNat (16 * hexVal c1 + hexVal c2) :: p, ?_⟩
          show unquoteChars ('%' :: c1 :: c2 :: (a3 ++ c0 :: (s ++ b)))
              = (Char.ofNat (16 * hexVal c1 + hexVal c2) :: p) ++ unquoteChars (c0 :: (s ++ b))
          rw [unquote_hex c1 c2 _ hx, hp]
          rfl
        · obtain ⟨p, hp⟩ := ih (c1 :: c2 :: a3) (by simp at ha ⊢; omega)
          refine ⟨'%' :: p, ?_⟩
          show unquoteChars ('%' :: c1 :: c2 :: (a3 ++ c0 :: (s ++ b)))
              = ('%' :: p) ++ unquoteChars (c0 :: (s ++ b))
          rw [unquote_nothex c1 c2 _ (Bool.eq_false_iff.mpr hx)]
          have hp' : unquoteChars (c1 :: c2 :: (a3 ++ c0 :: (s ++ b)))
              = p ++ unquoteChars (c0 :: (s ++ b)) := hp
          rw [hp']
          rfl
    · obtain ⟨p, hp⟩ := ih a1 (by simp at ha ⊢; omega)
      refine ⟨c :: p, ?_⟩
      show unquoteChars (c :: (a1 ++ c0 :: (s ++ b))) = (c :: p) ++ unquoteChars (c0 :: (s ++ b))
      rw [unquote_cons_ne c _ hc, hp]
      rfl

/-- Decoding a raw dot-dot-slash emits it unchanged. -/
theorem unquote_lit_dots (b : List Char) :
    unquoteChars ("../".toList ++ b) = "../".toList ++ unquoteChars b := by
  show unquoteChars ('.' :: '.' :: '/' :: b) = '.' :: '.' :: '/' :: unquoteChars b
  rw [unquote_cons_ne _ _ (by decide), unquote_cons_ne _ _ (by decide),
    unquote_cons_ne _ _ (by decide)]

/-- Decoding a raw dot-dot-backslash emits it unchanged. -/
theorem unquote_lit_dots_bs (b : List Char) :
    unquoteChars ("..\\".toList ++ b) = "..\\".toList ++ unquoteChars b := by
  show unquoteChars ('.' :: '.' :: '\\' :: b) = '.' :: '.' :: '\\' :: unquoteChars b
  rw [unquote_cons_ne _ _ (by decide), unquote_cons_ne _ _ (by decide),
    unquote_cons_ne _ _ (by decide)]

/-- Decoding the literal `/etc/` emits it unchanged. -/
theorem unquote_lit_etc (b : List Char) :
    unquoteChars ("/etc/".toList ++ b) = "/etc/".toList ++ unquoteChars b := by
  show unquoteChars ('/' :: 'e' :: 't' :: 'c' :: '/' :: b)
      = '/' :: 'e' :: 't' :: 'c' :: '/' :: unquoteChars b
  rw [unquote_cons_ne _ _ (by decide), unquote_cons_ne _ _ (by decide),
    unquote_cons_ne _ _ (by decide), unquote_cons_ne _ _ (by decide),
    unquote_cons_ne _ _ (by decide)]

/-- Decoding the literal `/proc/` emits it unchanged. -/
theorem unquote_lit_proc (b : List Char) :
    unquoteChars ("/proc/".toList ++ b) = "/proc/".toList ++ unquoteChars b := by
  show unquoteChars ('/' :: 'p' :: 'r' :: 'o' :: 'c' :: '/' :: b)
      = '/' :: 'p' :: 'r' :: 'o' :: 'c' :: '/' :: unquoteChars b
  rw [unquote_cons_ne _ _ (by decide), unquote_cons_ne _ _ (by decide),
    unquote_cons_ne _ _ (by decide), unquote_cons_ne _ _ (by decide),
    unquote_cons_ne _ _ (by decide), unquote_cons_ne _ _ (by decide)]

/-- Decoding the singly-encoded traversal marker produces the raw one. -/
theorem unquote_enc_dots (b : List Char) :
    unquoteChars ("%2e%2e/".toList ++ b) = "../".toList ++ unquoteChars b := by
  show unquoteChars ('%' :: '2' :: 'e' :: '%' :: '2' :: 'e' :: '/' :: b)
      = '.' :: '.' :: '/' :: unquoteChars b
  rw [unquote_hex _ _ _ (by decide), unquote_hex _ _ _ (by decide),
    unquote_cons_ne _ _ (by decide),
    show Char.ofNat (16 * hexVal '2' + hexVal 'e') = '.' from by decide]

/-- Decoding the doubly-encoded traversal marker produces the singly-encoded
one (also on the malicious-pattern list). -/
theorem unquote_denc_dots (b : List Char) :
    unquoteChars ("%252e%252e/".toList ++ b) = "%2e%2e/".toList ++ unquoteChars b := by
  show unquoteChars ('%' :: '2' :: '5' :: '2' :: 'e' :: '%' :: '2' :: '5' :: '2' :: 'e' :: '/' :: b)
      = '%' :: '2' :: 'e' :: '%' :: '2' :: 'e' :: '/' :: unquoteChars b
  rw [unquote_hex _ _ _ (by decide), unquote_cons_ne _ _ (by decide),
    unquote_cons_ne _ _ (by decide), unquote_hex _ _ _ (by decide),
    unquote_cons_ne _ _ (by decide), unquote_cons_ne _ _ (by decide),
    unquote_cons_ne _ _ (by decide),
    show Char.ofNat (16 * hexVal '2' + hexVal '5') = '%' from by decide]

/-- If a marker whose first character is not a hex digit occurs in the raw
input, its decoded form occurs in the decoded input. -/
theorem infix_unquote_emit (rel u v : List Char) (c0 : Char) (s : List Char)
    (hu : u = c0 :: s) (hc0 : isHexDigitPy c0 = false)
    (hemit : ∀ b, unquoteChars (u ++ b) = v ++ unquoteChars b)
    (hinf : u <:+: rel) : v <:+: unquoteChars rel := by
  obtain ⟨x, y, hd⟩ := hinf
  subst hu
  subst hd
  obtain ⟨p, hp⟩ := unquote_shift c0 hc0 s y x.length x le_rfl
  have hshape : x ++ (c0 :: s) ++ y = x ++ c0 :: (s ++ y) := by simp
  rw [hshape, hp]
  have h2 : unquoteChars (c0 :: (s ++ y)) = v ++ unquoteChars y := hemit y
  rw [h2]
  exact ⟨p, unquoteChars y, by rw [List.append_assoc]⟩

/-- A malicious pattern that survives control-stripping and lowercasing makes
the denylist check of `sanitize_input` fire. -/
theorem malicious_any_of_infix (u d : List Char) (hu : u ∈ MALICIOUS_PATTERNS)
    (h32 : ∀ c ∈ u, 32 ≤ c.toNat) (hlow : lowerChars u = u) (hinf : u <:+: d) :
    MALICIOUS_PATTERNS.any
      (fun p => decide (p <:+: lowerChars (d.filter (fun c => 32 ≤ c.toNat)))) = true := by
  refine List.any_eq_true.mpr ⟨u, hu, ?_⟩
  rw [decide_eq_true_eq]
  obtain ⟨x, y, hd⟩ := hinf
  subst hd
  have hfu : u.filter (fun c => decide (32 ≤ c.toNat)) = u :=
    List.filter_eq_self.mpr (fun a ha => decide_eq_true (h32 a ha))
  have hsplit : lowerChars ((x ++ u ++ y).filter (fun c => 32 ≤ c.toNat))
      = lowerChars (x.filter (fun c => 32 ≤ c.toNat)) ++ u
        ++ lowerChars (y.filter (fun c => 32 ≤ c.toNat)) := by
    rw [show ((x ++ u ++ y).filter (fun c => decide (32 ≤ c.toNat)))
        = x.filter (fun c => decide (32 ≤ c.toNat)) ++ u.filter (fun c => decide (32 ≤ c.toNat))
          ++ y.filter (fun c => decide (32 ≤ c.toNat)) from by
      rw [List.filter_append, List.filter_append]]
    rw [hfu]
    unfold lowerChars
    rw [List.map_append, List.map_append]
    rw [show List.map Char.toLower u = u from hlow]
  rw [hsplit]
  exact ⟨_, _, rfl⟩

/-- A firing denylist check makes `sanitize_input` raise. -/
theorem sanitize_error_of_malicious (rel : List Char)
    (h : MALICIOUS_PATTERNS.any
      (fun p => decide (p <:+: lowerChars ((unquoteChars rel).filter (fun c => 32 ≤ c.toNat)))) = true) :
    sanitize_input rel = .error "Invalid path contains malicious pattern" := by
  simp only [sanitize_input]
  rw [h]
  rfl

/-- A raising `sanitize_input` makes `validate_path` raise with the same
message. -/
theorem validate_path_error_of_sanitize (base : List (List Char)) (rel : List Char)
    (e : String) (h : sanitize_input rel = .error e) :
    validate_path base rel = .error e := by
  unfold validate_path
  rw [h]

/-- Decoding the singly-encoded backslash traversal marker produces the raw
one. -/
theorem unquote_enc_dots_bs (b : List Char) :
    unquoteChars ("%2e%2e\\".toList ++ b) = "..\\".toList ++ unquoteChars b := by
  show unquoteChars ('%' :: '2' :: 'e' :: '%' :: '2' :: 'e' :: '\\' :: b)
      = '.' :: '.' :: '\\' :: unquoteChars b
  rw [unquote_hex _ _ _ (by decide), unquote_hex _ _ _ (by decide),
    unquote_cons_ne _ _ (by decide),
    show Char.ofNat (16 * hexVal '2' + hexVal 'e') = '.' from by decide]

/-- Decoding the doubly-encoded backslash traversal marker produces the
singly-encoded one. -/
theorem unquote_denc_dots_bs (b : List Char) :
    unquoteChars ("%252e%252e\\".toList ++ b) = "%2e%2e\\".toList ++ unquoteChars b := by
  show unquoteChars
      ('%' :: '2' :: '5' :: '2' :: 'e' :: '%' :: '2' :: '5' :: '2' :: 'e' :: '\\' :: b)
      = '%' :: '2' :: 'e' :: '%' :: '2' :: 'e' :: '\\' :: unquoteChars b
  rw [unquote_hex _ _ _ (by decide), unquote_cons_ne _ _ (by decide),
    unquote_cons_ne _ _ (by decide), unquote_hex _ _ _ (by decide),
    unquote_cons_ne _ _ (by decide), unquote_cons_ne _ _ (by decide),
    unquote_cons_ne _ _ (by decide),
    show Char.ofNat (16 * hexVal '2' + hexVal '5') = '%' from by decide]

/-- C1: for every base directory and every relative path containing a raw
traversal marker, its single- or double-percent-encoded variant, or an
absolute system prefix, `validate_path` raises `PathTraversalError` (the
malicious-pattern rejection) and never returns a resolved path. -/
theorem c1_traversal_patterns_rejected (base : List (List Char)) (rel : List Char)
    (h : "../".toList <:+: rel ∨ "..\\".toList <:+: rel ∨ "%2e%2e/".toList <:+: rel ∨
      "%2e%2e\\".toList <:+: rel ∨ "%252e%252e/".toList <:+: rel ∨
      "%252e%252e\\".toList <:+: rel ∨ "/etc/".toList <:+: rel ∨ "/proc/".toList <:+: rel) :
    validate_path base rel = .error "Invalid path contains malicious pattern" := by
  refine validate_path_error_of_sanitize base rel _ (sanitize_error_of_malicious rel ?_)
  rcases h with h | h | h | h | h | h | h | h
  · exact malicious_any_of_infix "../".toList _ (by decide) (by decide) (by decide)
      (infix_unquote_emit rel _ _ '.' "./".toList (by decide) (by decide) unquote_lit_dots h)
  · exact malicious_any_of_infix "..\\".toList _ (by decide) (by decide) (by decide)
      (infix_unquote_emit rel _ _ '.' ".\\".toList (by decide) (by decide) unquote_lit_dots_bs h)
  · exact malicious_any_of_infix "../".toList _ (by decide) (by decide) (by decide)
      (infix_unquote_emit rel _ _ '%' "2e%2e/".toList (by decide) (by decide) unquote_enc_dots h)
  · exact malicious_any_of_infix "..\\".toList _ (by decide) (by decide) (by decide)
      (infix_unquote_emit rel _ _ '%' "2e%2e\\".toList (by decide) (by decide)
        unquote_enc_dots_bs h)
  · exact malicious_any_of_infix "%2e%2e/".toList _ (by decide) (by decide) (by decide)
      (infix_unquote_emit rel _ _ '%' "252e%252e/".toList (by decide) (by decide)
        unquote_denc_dots h)
  · exact malicious_any_of_infix "%2e%2e\\".toList _ (by decide) (by decide) (by decide)
      (infix_unquote_emit rel _ _ '%' "252e%252e\\".toList (by decide) (by decide)
        unquote_denc_dots_bs h)
  · exact malicious_any_of_infix "/etc/".toList _ (by decide) (by decide) (by decide)
      (infix_unquote_emit rel _ _ '/' "etc/".toList (by decide) (by decide) unquote_lit_etc h)
  · exact malicious_any_of_infix "/proc/".toList _ (by decide) (by decide) (by decide)
      (infix_unquote_emit rel _ _ '/' "proc/".toList (by decide) (by decide) unquote_lit_proc h)

/-- C1 witness: a concrete traversal input under a concrete base is
rejected. -/
theorem c1_traversal_patterns_rejected_witness :
    validate_path ["repo".toList] "../secret".toList
      = .error "Invalid path contains malicious pattern" :=
  c1_traversal_patterns_rejected ["repo".toList] "../secret".toList
    (Or.inl ⟨[], "secret".toList, rfl⟩)

/-- C8: contrary to the specified edge case, an empty relative path does not
resolve to the base: `sanitize_input` rejects the empty string at the
character-whitelist regex (which demands at least one character) before
`validate_path`'s own `if not relative_path: return base_path` branch can
run, so `validate_path base ""` raises `PathTraversalError` for every base. -/
theorem c8_empty_relative_path_raises (base : List (List Char)) :
    validate_path base [] = .error "Path contains invalid characters" :=
  validate_path_error_of_sanitize base [] _ (by decide)

/-! ## Lemmas about the subprocess executor -/

/-- The history returned by the rate-limit check is either the pruned list or
the pruned list plus the current timestamp. -/
theorem check_rate_limit_hist (hist : List ℤ) (now : ℤ) :
    (check_rate_limit hist now).2 = hist.filter (fun t => decide (now - RATE_LIMIT_WINDOW < t)) ∨
    (check_rate_limit hist now).2
      = hist.filter (fun t => decide (now - RATE_LIMIT_WINDOW < t)) ++ [now] := by
  simp only [check_rate_limit]
  split
  · exact Or.inl rfl
  · exact Or.inr rfl

/-- The history returned by `validate_command` is the original (for the
pre-rate-limit rejections), the pruned, or the pruned-plus-timestamp list. -/
theorem validate_command_hist (cmd : List String) (timeout : Option ℕ) (hist : List ℤ)
    (now : ℤ) :
    (validate_command cmd timeout hist now).2 = hist ∨
    (validate_command cmd timeout hist now).2
      = hist.filter (fun t => decide (now - RATE_LIMIT_WINDOW < t)) ∨
    (validate_command cmd timeout hist now).2
      = hist.filter (fun t => decide (now - RATE_LIMIT_WINDOW < t)) ++ [now] := by
  unfold validate_command
  split
  · exact Or.inl rfl
  split
  · exact Or.inl rfl
  split
  · exact Or.inl rfl
  have hh := check_rate_limit_hist hist now
  rcases hcr : check_rate_limit hist now with ⟨r, h⟩
  rw [hcr] at hh
  cases r with
  | error e => exact Or.inr hh
  | ok u => exact Or.inr hh

/-- A failed validation propagates through `execute` as a `SecurityError`
with zero spawned processes. -/
theorem execute_error_of_validate (cmd : List String) (timeout : Option ℕ) (hist : List ℤ)
    (now : ℤ) (e : String) (h : List ℤ)
    (hv : validate_command cmd timeout hist now = (.error e, h)) :
    executeCmd cmd timeout hist now
      = ⟨0, .error ("Security violation or execution error: " ++ e), h⟩ := by
  unfold executeCmd
  rw [hv]

/-- C2: a command whose binary is not in the allowed-commands table, or whose
subcommand is not in the binary's table entry, is rejected by `execute`
(`CommandValidationError` wrapped as `SecurityError`) and spawns no
process. -/
theorem c2_unknown_command_rejected (b : String) (rest : List String) (timeout : Option ℕ)
    (hist : List ℤ) (now : ℤ)
    (hrej : alookup b ALLOWED_COMMANDS = none ∨
      ∃ sub subs, rest.head? = some sub ∧ alookup b ALLOWED_COMMANDS = some subs ∧
        alookup sub subs = none) :
    (executeCmd (b :: rest) timeout hist now).spawns = 0 ∧
      ∃ e, (executeCmd (b :: rest) timeout hist now).result = .error e := by
  have hstruct : ∃ e, validate_structure (b :: rest) = .error e := by
    rcases hrej with hnone | ⟨sub, subs, hsub, hsubs, hnone⟩
    · simp only [validate_structure, hnone]
      exact ⟨_, rfl⟩
    · obtain ⟨rest', rfl⟩ : ∃ rest', rest = sub :: rest' := by
        cases rest with
        | nil => simp at hsub
        | cons x xs => exact ⟨xs, by injection hsub with h1; rw [h1]⟩
      simp only [validate_structure, hsubs, hnone]
      exact ⟨_, rfl⟩
  have hval : ∃ e h', validate_command (b :: rest) timeout hist now = (.error e, h') := by
    unfold validate_command
    split
    · exact ⟨_, _, rfl⟩
    split
    · exact ⟨_, _, rfl⟩
    split
    · exact ⟨_, _, rfl⟩
    rcases hcr : check_rate_limit hist now with ⟨r, h⟩
    cases r with
    | error e => exact ⟨e, h, rfl⟩
    | ok u =>
      obtain ⟨e, he⟩ := hstruct
      rw [he]
      exact ⟨e, h, rfl⟩
  obtain ⟨e, h', hv⟩ := hval
  rw [execute_error_of_validate _ _ _ _ _ _ hv]
  exact ⟨rfl, _, rfl⟩

/-- C2 witness: `rm -rf /` is rejected with no spawn. -/
theorem c2_unknown_command_rejected_witness :
    (executeCmd ["rm", "-rf", "/"] none [] 0).spawns = 0 ∧
      ∃ e, (executeCmd ["rm", "-rf", "/"] none [] 0).result = .error e :=
  c2_unknown_command_rejected "rm" ["-rf", "/"] none [] 0 (Or.inl rfl)

/-- C9 counterexample: a rejected command (unknown binary `rm`) does have a
side effect on the executor's state: the rate-limit history gains the
current timestamp, so the state is not "exactly as it was before the
call". -/
theorem c9_rejection_mutates_history :
    (∃ e, (executeCmd ["rm", "-rf", "/"] none [] 0).result = .error e) ∧
      (executeCmd ["rm", "-rf", "/"] none [] 0).hist = [0] := by
  exact ⟨⟨_, rfl⟩, rfl⟩

/-- C9 amended: a rejected command spawns no process, but the executor's
rate-limit history is not necessarily unchanged: it is the original list
(for the empty-command, oversized-command and excessive-timeout rejections,
which fire before the rate-limit step), or the window-pruned list (when the
rate limiter itself rejects), or the pruned list with the current timestamp
appended (for every rejection after the rate-limit step). -/
theorem c9_rejection_no_spawn_history_bounded (cmd : List String) (timeout : Option ℕ)
    (hist : List ℤ) (now : ℤ)
    (herr : ∃ e, (executeCmd cmd timeout hist now).result = .error e) :
    (executeCmd cmd timeout hist now).spawns = 0 ∧
      ((executeCmd cmd timeout hist now).hist = hist ∨
       (executeCmd cmd timeout hist now).hist
         = hist.filter (fun t => decide (now - RATE_LIMIT_WINDOW < t)) ∨
       (executeCmd cmd timeout hist now).hist
         = hist.filter (fun t => decide (now - RATE_LIMIT_WINDOW < t)) ++ [now]) := by
  have hh := validate_command_hist cmd timeout hist now
  unfold executeCmd at herr ⊢
  rcases hv : validate_command cmd timeout hist now with ⟨r, h'⟩
  rw [hv] at hh herr
  cases r with
  | ok u =>
    obtain ⟨e, he⟩ := herr
    exact Except.noConfusion he
  | error e => exact ⟨rfl, hh⟩

/-- C9 amended witness: the concrete rejected `rm -rf /` call spawns nothing
and its final history is the pruned-plus-timestamp case. -/
theorem c9_rejection_no_spawn_history_bounded_witness :
    (executeCmd ["rm", "-rf", "/"] none [] 0).spawns = 0 ∧
      ((executeCmd ["rm", "-rf", "/"] none [] 0).hist = [] ∨
       (executeCmd ["rm", "-rf", "/"] none [] 0).hist
         = List.filter (fun t => decide ((0 : ℤ) - RATE_LIMIT_WINDOW < t)) [] ∨
       (executeCmd ["rm", "-rf", "/"] none [] 0).hist
         = List.filter (fun t => decide ((0 : ℤ) - RATE_LIMIT_WINDOW < t)) [] ++ [0]) :=
  c9_rejection_no_spawn_history_bounded ["rm", "-rf", "/"] none [] 0 ⟨_, rfl⟩

/-- C10: `execute_git_clone` rejects every repository URL and target
directory with a `SecurityError` and spawns no process: the command it
builds places the literal `1` (the depth value) at index 3, which is the
position `_validate_arguments` checks as the clone URL, and `1` never
matches the git-URL regexes. -/
theorem c10_git_clone_always_rejected (url target : String) (timeout : ℕ) (hist : List ℤ)
    (now : ℤ) :
    validate_git_url "1" = .error "Invalid git URL format" ∧
    (execute_git_clone url target timeout hist now).spawns = 0 ∧
      ∃ e, (execute_git_clone url target timeout hist now).result = .error e := by
  refine ⟨rfl, ?_⟩
  have hval : ∃ e h', validate_command ["git", "clone", "--depth", "1", url, target]
      (some timeout) hist now = (.error e, h') := by
    unfold validate_command
    split
    · exact ⟨_, _, rfl⟩
    split
    · exact ⟨_, _, rfl⟩
    split
    · exact ⟨_, _, rfl⟩
    rcases hcr : check_rate_limit hist now with ⟨r, h⟩
    cases r with
    | error e => exact ⟨e, h, rfl⟩
    | ok u => exact ⟨_, h, rfl⟩
  obtain ⟨e, h', hv⟩ := hval
  unfold execute_git_clone
  rw [execute_error_of_validate _ _ _ _ _ _ hv]
  exact ⟨rfl, _, rfl⟩

/-! ## Lemmas about the sanitized environment -/

/-- Looking up the key just set yields the new value. -/
theorem alookup_aset_self {α : Type} (k : String) (v : α) (m : List (String × α)) :
    alookup k (aset k v m) = some v := by
  induction m with
  | nil => simp [aset, alookup]
  | cons kv rest ih =>
    rcases kv with ⟨k', v'⟩
    by_cases h : k = k'
    · simp [aset, alookup, h]
    · simp [aset, alookup, h, ih]

/-- Setting one key leaves lookups of other keys unchanged. -/
theorem alookup_aset_ne {α : Type} (k k' : String) (hne : k' ≠ k) (v : α)
    (m : List (String × α)) : alookup k' (aset k v m) = alookup k' m := by
  induction m with
  | nil => simp [aset, alookup, hne]
  | cons kv rest ih =>
    rcases kv with ⟨k'', v''⟩
    by_cases h : k = k''
    · subst h
      simp [aset, alookup, hne]
    · by_cases h2 : k' = k''
      · simp [aset, alookup, h, h2]
      · simp [aset, alookup, h, h2, ih]

/-- The override fold of `_sanitize_environment` only ever writes keys of the
allowlist, so lookups outside it are unchanged. -/
theorem env_fold_preserves (e : List (String × String)) (k : String)
    (hk : k ∉ SAFE_ENV_KEYS) :
    ∀ acc : List (String × String),
      alookup k (e.foldl (fun acc kv =>
        if kv.1 ∈ SAFE_ENV_KEYS ∧ kv.2.length < 1000 then aset kv.1 kv.2 acc else acc) acc)
        = alookup k acc := by
  induction e with
  | nil => intro acc; rfl
  | cons kv rest ih =>
    intro acc
    simp only [List.foldl_cons]
    rw [ih]
    split
    · rename_i h
      exact alookup_aset_ne kv.1 k (fun heq => hk (heq ▸ h.1)) kv.2 acc
    · rfl

/-- C4 counterexample: two runs on the same command that differ only in the
operating-system variable `SECRET` — which is outside the allowlist — hand
different environments to the child: the whole of `os.environ` is copied
into the child environment, so `SECRET` flows through. -/
theorem c4_environment_not_minimal :
    alookup "SECRET" (sanitize_environment [("PATH", "/usr/bin"), ("SECRET", "x")] none)
      = some "x" ∧
    alookup "SECRET" (sanitize_environment [("PATH", "/usr/bin")] none) = none ∧
    sanitize_environment [("PATH", "/usr/bin"), ("SECRET", "x")] none
      ≠ sanitize_environment [("PATH", "/usr/bin")] none := by
  refine ⟨by decide, by decide, ?_⟩
  intro h
  have := congrArg (alookup "SECRET") h
  simp [sanitize_environment, aset, alookup] at this

/-- C4 amended: the child environment is the full copy of `os.environ` with
the two git defaults forced; only the caller-supplied overrides are
restricted to the allowlist.  Every OS variable outside the two forced keys
is inherited verbatim (with no overrides), and even with overrides every key
outside the allowlist and the forced keys is inherited verbatim — so the
child environment is not restricted to the allowlist, but the overrides
are. -/
theorem c4_environment_characterization :
    (∀ (osEnv : List (String × String)) (k : String),
      k ≠ "GIT_TERMINAL_PROMPT" → k ≠ "GIT_SSH_COMMAND" →
      alookup k (sanitize_environment osEnv none) = alookup k osEnv) ∧
    (∀ (osEnv env : List (String × String)) (k : String),
      k ∉ SAFE_ENV_KEYS → k ≠ "GIT_TERMINAL_PROMPT" → k ≠ "GIT_SSH_COMMAND" →
      alookup k (sanitize_environment osEnv (some env)) = alookup k osEnv) ∧
    (∀ (osEnv : List (String × String)) (env : Option (List (String × String))),
      alookup "GIT_TERMINAL_PROMPT" (sanitize_environment osEnv env) = some "0" ∧
      alookup "GIT_SSH_COMMAND" (sanitize_environment osEnv env)
        = some "ssh -o StrictHostKeyChecking=no") := by
  refine ⟨?_, ?_, ?_⟩
  · intro osEnv k h1 h2
    unfold sanitize_environment
    rw [alookup_aset_ne _ _ h2, alookup_aset_ne _ _ h1]
  · intro osEnv env k hk h1 h2
    unfold sanitize_environment
    rw [alookup_aset_ne _ _ h2, alookup_aset_ne _ _ h1]
    exact env_fold_preserves env k hk osEnv
  · intro osEnv env
    constructor
    · unfold sanitize_environment
      rw [alookup_aset_ne _ _ (by decide), alookup_aset_self]
    · unfold sanitize_environment
      rw [alookup_aset_self]

/-- C4 amended witness: a concrete OS variable outside the allowlist is
inherited by the child environment. -/
theorem c4_environment_characterization_witness :
    alookup "SECRET" (sanitize_environment [("SECRET", "x")] none)
      = alookup "SECRET" [("SECRET", "x")] :=
  c4_environment_characterization.1 [("SECRET", "x")] "SECRET" (by decide) (by decide)

/-! ## Lemmas about URL validation -/

/-- A URL that validates successfully passed the domain check and had no
truthy password component: `validate_url` returns `True` only after every
guard of its chain. -/
theorem validate_url_ok_guards (url : List Char) (parsed : UrlParts)
    (hp : urlparseModel url = .ok parsed) (b : Bool) (hok : validate_url url = .ok b) :
    validate_domain (hostnameOf parsed.netloc) = true ∧
      optTruthy (passwordOf parsed.netloc) = false := by
  unfold validate_url at hok
  split at hok
  · simp at hok
  split at hok
  · simp at hok
  split at hok
  · simp at hok
  split at hok
  · simp_all
  rename_i p hpeq
  rw [hp] at hpeq
  injection hpeq with hpe
  subst hpe
  split at hok
  · simp at hok
  split at hok
  · simp at hok
  split at hok
  · simp at hok
  split at hok
  · simp at hok
  split at hok
  · simp at hok
  split at hok
  · simp at hok
  rename_i hs hd hpath hu hpw hdep
  exact ⟨by simpa using hd, by simpa using hpw⟩

/-- C3 counterexample: the claim says every URL containing an embedded
password component is rejected, but a URL with an empty password component
(`user:` followed by `@`) parses with `password = ''`, which is falsy, so
the password guard does not fire and validation succeeds. -/
theorem c3_empty_password_accepted :
    validate_url "https://user:@github.com/org/repo.git".toList = .ok true ∧
    urlparseModel "https://user:@github.com/org/repo.git".toList
      = .ok ⟨"https".toList, "user:@github.com".toList, "/org/repo.git".toList, [], []⟩ ∧
    passwordOf "user:@github.com".toList = some [] := by
  refine ⟨by decide, by decide, by decide⟩

/-- C3 amended: `validate_url` accepts the well-formed GitHub URL; it rejects
`javascript:alert(1)` (forbidden-pattern denylist) and the disallowed host
`evil.example`; any successfully validated URL passed the domain allowlist
check on its parsed hostname; and any URL whose parsed password component is
nonempty is rejected (an empty password component slips through, which is the
single correction to the claim). -/
theorem c3_url_validation :
    validate_url "https://github.com/org/repo.git".toList = .ok true ∧
    validate_url "javascript:alert(1)".toList = .error "URL contains forbidden patterns" ∧
    validate_url "https://evil.example/org/repo.git".toList
      = .error "Domain not in allowed domains" ∧
    (∀ (url : List Char) (parsed : UrlParts) (b : Bool),
      urlparseModel url = .ok parsed → validate_url url = .ok b →
      validate_domain (hostnameOf parsed.netloc) = true) ∧
    (∀ (url : List Char) (parsed : UrlParts) (pw : List Char),
      urlparseModel url = .ok parsed → passwordOf parsed.netloc = some pw → pw ≠ [] →
      ∃ e, validate_url url = .error e) := by
  refine ⟨by decide, by decide, by decide, ?_, ?_⟩
  · intro url parsed b hp hok
    exact (validate_url_ok_guards url parsed hp b hok).1
  · intro url parsed pw hp hpw hne
    rcases hv : validate_url url with e | b
    · exact ⟨e, rfl⟩
    · exfalso
      have hguards := (validate_url_ok_guards url parsed hp b hv).2
      rw [hpw] at hguards
      simp only [optTruthy] at hguards
      rcases pw with _ | ⟨c, pw'⟩
      · exact hne rfl
      · simp at hguards

/-- C3 amended witness: the domain-allowlist consequence applied to the
concrete GitHub URL, and the nonempty-password rejection applied to a
concrete URL with password `pw`. -/
theorem c3_url_validation_witness :
    validate_domain (hostnameOf "github.com".toList) = true ∧
    ∃ e, validate_url "https://user:pw@github.com/org/repo.git".toList = .error e := by
  constructor
  · exact c3_url_validation.2.2.2.1 "https://github.com/org/repo.git".toList
      ⟨"https".toList, "github.com".toList, "/org/repo.git".toList, [], []⟩ true
      (by decide) (by decide)
  · exact c3_url_validation.2.2.2.2 "https://user:pw@github.com/org/repo.git".toList
      ⟨"https".toList, "user:pw@github.com".toList, "/org/repo.git".toList, [], []⟩
      "pw".toList (by decide) (by decide) (by decide)

/-! ## Lemmas about the rate limiter -/

/-- Recording a list of failed attempts appends their timestamps to the
identifier's list and leaves the block table unchanged. -/
theorem record_fold (identifier : String) (ts : List ℤ) :
    ∀ st : RLState,
      ((ts.foldl (fun s t => record_attempt s identifier false t) st).attempts identifier
        = st.attempts identifier ++ ts) ∧
      (ts.foldl (fun s t => record_attempt s identifier false t) st).blocks = st.blocks := by
  induction ts with
  | nil => intro st; exact ⟨by simp, rfl⟩
  | cons t ts ih =>
    intro st
    simp only [List.foldl_cons]
    obtain ⟨h1, h2⟩ := ih (record_attempt st identifier false t)
    refine ⟨?_, by rw [h2]; rfl⟩
    rw [h1]
    simp [record_attempt]


/-- C5 counterexample: with `window_size = 10`, `max_attempts = 2` and
`block_duration = 1`, two failed attempts at time 0 trigger a block at time
0; at time 1 — `block_duration` seconds after the block was set — the
limiter does not return `limited = false`: the expired block is deleted but
the two attempts are still inside the window, so the identifier is
immediately re-blocked. -/
theorem c5_reblocks_when_block_shorter_than_window :
    (is_rate_limited ⟨10, 2, 1⟩
      (record_attempt (record_attempt freshRL "id" false 0) "id" false 0) "id" 0).1
      = (true, some 1) ∧
    (is_rate_limited ⟨10, 2, 1⟩
      (is_rate_limited ⟨10, 2, 1⟩
        (record_attempt (record_attempt freshRL "id" false 0) "id" false 0) "id" 0).2
      "id" 1).1 = (true, some 1) := by
  refine ⟨by decide, by decide⟩

/-- C5 amended: starting from a fresh limiter, after `max_attempts` failed
attempts within the window, the next `is_rate_limited` call returns
`limited = true` with `block_duration` as the retry-after value — and,
provided `block_duration` is at least `window_size` (so that the recorded
attempts have left the window by the time the block expires), a call
`block_duration` or more seconds after the block was set returns
`limited = false` again. -/
theorem c5_rate_limiter_block_and_release (cfg : RLConfig) (identifier : String)
    (ts : List ℤ) (tCall t2 : ℤ)
    (hN : 1 ≤ cfg.max_attempts)
    (hlen : ts.length = cfg.max_attempts)
    (hwin : ∀ t ∈ ts, tCall - cfg.window_size < t ∧ t ≤ tCall)
    (hBW : cfg.window_size ≤ cfg.block_duration)
    (ht2 : tCall + cfg.block_duration ≤ t2) :
    (is_rate_limited cfg
      (ts.foldl (fun s t => record_attempt s identifier false t) freshRL) identifier tCall).1
      = (true, some cfg.block_duration) ∧
    (is_rate_limited cfg
      (is_rate_limited cfg
        (ts.foldl (fun s t => record_attempt s identifier false t) freshRL) identifier tCall).2
      identifier t2).1 = (false, none) := by
  obtain ⟨hatt0, hblk0⟩ := record_fold identifier ts freshRL
  have hatt : (ts.foldl (fun s t => record_attempt s identifier false t) freshRL).attempts
      identifier = ts := by rw [hatt0]; rfl
  have hblk : (ts.foldl (fun s t => record_attempt s identifier false t) freshRL).blocks
      = [] := by rw [hblk0]; rfl
  have hfilter1 : (ts.filter (fun t => decide (tCall - cfg.window_size < t))) = ts :=
    List.filter_eq_self.mpr (fun t ht => decide_eq_true (hwin t ht).1)
  have hfilter2 : (ts.filter (fun t => decide (t2 - cfg.window_size < t))) = [] :=
    List.filter_eq_nil_iff.mpr (fun t ht hdec => by
      have hle : t ≤ tCall := (hwin t ht).2
      have hlt : t2 - cfg.window_size < t := of_decide_eq_true hdec
      omega)
  have h1 : is_rate_limited cfg
      (ts.foldl (fun s t => record_attempt s identifier false t) freshRL) identifier tCall
      = ((true, some cfg.block_duration),
        ⟨fun i => if i = identifier
            then ts
            else (ts.foldl (fun s t => record_attempt s identifier false t) freshRL).attempts i,
          [(identifier, tCall + cfg.block_duration)]⟩) := by
    simp only [is_rate_limited, hblk, alookup, hatt, hfilter1]
    rw [if_pos (by omega)]
    rfl
  have halk : alookup identifier [(identifier, tCall + cfg.block_duration)]
      = some (tCall + cfg.block_duration) := by simp [alookup]
  have h2 : (is_rate_limited cfg
      (⟨fun i => if i = identifier
          then ts
          else (ts.foldl (fun s t => record_attempt s identifier false t) freshRL).attempts i,
        [(identifier, tCall + cfg.block_duration)]⟩ : RLState) identifier t2).1
      = (false, none) := by
    simp only [is_rate_limited, halk]
    rw [if_neg (by omega)]
    simp only [aremove, eq_self_iff_true, if_true, hfilter2, List.length_nil]
    rw [if_neg (by omega)]
  exact ⟨by rw [h1], by rw [h1]; exact h2⟩

/-- C5 amended witness: the default configuration (60-second window, 5
attempts, 300-second block) blocks after five failures and releases once the
block has elapsed. -/
theorem c5_rate_limiter_block_and_release_witness :
    (is_rate_limited ⟨60, 5, 300⟩
      ([10, 11, 12, 13, 14].foldl (fun s t => record_attempt s "ip" false t) freshRL)
      "ip" 14).1 = (true, some 300) ∧
    (is_rate_limited ⟨60, 5, 300⟩
      (is_rate_limited ⟨60, 5, 300⟩
        ([10, 11, 12, 13, 14].foldl (fun s t => record_attempt s "ip" false t) freshRL)
        "ip" 14).2
      "ip" 314).1 = (false, none) :=
  c5_rate_limiter_block_and_release ⟨60, 5, 300⟩ "ip" [10, 11, 12, 13, 14] 14 314
    (by decide) (by decide) (by decide) (by decide) (by decide)

/-! ## Lemmas about the session manager -/

/-- C6 counterexample: for a live session stored with IP `1.1.1.1` and user
agent `A`, validating with a different user agent alone succeeds (the stored
user agent is never compared), and validating with a different IP returns
null without invalidating the session — a subsequent validation with the
original IP and user agent still succeeds. -/
theorem c6_mismatch_not_invalidated :
    ((validate_session ⟨1800, 5⟩
        ⟨[("s", ⟨"u", 0, 0, "1.1.1.1", "A", true⟩)], fun _ => ["s"]⟩
        "s" "1.1.1.1" "B" 10).1).isSome = true ∧
    (validate_session ⟨1800, 5⟩
        ⟨[("s", ⟨"u", 0, 0, "1.1.1.1", "A", true⟩)], fun _ => ["s"]⟩
        "s" "2.2.2.2" "A" 10).1 = none ∧
    ((validate_session ⟨1800, 5⟩
        (validate_session ⟨1800, 5⟩
          ⟨[("s", ⟨"u", 0, 0, "1.1.1.1", "A", true⟩)], fun _ => ["s"]⟩
          "s" "2.2.2.2" "A" 10).2
        "s" "1.1.1.1" "A" 20).1).isSome = true := by
  refine ⟨by decide, by decide, by decide⟩

/-- C6 amended: for an active, un-timed-out session, `validate_session` with
a mismatched IP returns null and leaves the state untouched (the session is
not invalidated), while the stored user agent plays no role: with a matching
IP the session is refreshed and returned whatever user agent is supplied. -/
theorem c6_ip_mismatch_null_without_invalidation (cfg : SMConfig) (st : SMState)
    (sessionId ip ua : String) (now : ℤ) (sd : Session)
    (hlk : alookup sessionId st.sessions = some sd)
    (hact : sd.active = true)
    (htimeout : ¬(cfg.session_timeout < now - sd.last_activity)) :
    (sd.ip ≠ ip → validate_session cfg st sessionId ip ua now = (none, st)) ∧
    (sd.ip = ip → (validate_session cfg st sessionId ip ua now).1
      = some ⟨sd.user_id, sd.created_at, now, sd.ip, sd.user_agent, sd.active⟩) := by
  constructor
  · intro hne
    simp only [validate_session, hlk]
    rw [if_neg (by rw [hact]; simp), if_neg htimeout, if_pos hne]
  · intro heq
    simp only [validate_session, hlk]
    rw [if_neg (by rw [hact]; simp), if_neg htimeout, if_neg (by rw [heq]; simp)]

/-- C6 amended witness: the concrete hijack scenario behind the
counterexample, through the amended theorem. -/
theorem c6_ip_mismatch_null_without_invalidation_witness :
    validate_session ⟨1800, 5⟩
        ⟨[("s", ⟨"u", 0, 0, "1.1.1.1", "A", true⟩)], fun _ => ["s"]⟩
        "s" "2.2.2.2" "A" 10
      = (none, ⟨[("s", ⟨"u", 0, 0, "1.1.1.1", "A", true⟩)], fun _ => ["s"]⟩) :=
  (c6_ip_mismatch_null_without_invalidation ⟨1800, 5⟩
    ⟨[("s", ⟨"u", 0, 0, "1.1.1.1", "A", true⟩)], fun _ => ["s"]⟩
    "s" "2.2.2.2" "A" 10 ⟨"u", 0, 0, "1.1.1.1", "A", true⟩
    (by decide) (by decide) (by decide)).1 (by decide)

/-- Insertion keeps all previous elements plus the new one. -/
theorem insertByKey_perm (key : String → ℤ) (x : String) (l : List String) :
    List.Perm (insertByKey key x l) (x :: l) := by
  induction l with
  | nil => exact List.Perm.refl _
  | cons y ys ih =>
    unfold insertByKey
    split
    · exact List.Perm.refl _
    · exact (ih.cons y).trans (List.Perm.swap x y ys)

/-- The key-sort is a permutation of the input. -/
theorem sortByKey_perm (key : String → ℤ) (l : List String) : List.Perm (sortByKey key l) l := by
  induction l with
  | nil => exact List.Perm.refl _
  | cons x xs ih => exact (insertByKey_perm key x (sortByKey key xs)).trans (ih.cons x)

/-- Insertion preserves sortedness by the key. -/
theorem insertByKey_sorted (key : String → ℤ) (x : String) (l : List String)
    (h : List.Sorted (fun a b => key a ≤ key b) l) :
    List.Sorted (fun a b => key a ≤ key b) (insertByKey key x l) := by
  induction l with
  | nil => simp [insertByKey]
  | cons y ys ih =>
    unfold insertByKey
    split
    · rename_i hle
      rw [List.sorted_cons]
      refine ⟨?_, h⟩
      intro z hz
      rcases List.mem_cons.mp hz with rfl | hz'
      · exact hle
      · exact le_trans hle ((List.sorted_cons.mp h).1 z hz')
    · rename_i hgt
      rw [List.sorted_cons]
      refine ⟨?_, ih (List.sorted_cons.mp h).2⟩
      intro z hz
      have hz' := (insertByKey_perm key x ys).mem_iff.mp hz
      rcases List.mem_cons.mp hz' with rfl | hz''
      · exact le_of_not_le hgt
      · exact (List.sorted_cons.mp h).1 z hz''

/-- The key-sort is sorted by the key. -/
theorem sortByKey_sorted (key : String → ℤ) (l : List String) :
    List.Sorted (fun a b => key a ≤ key b) (sortByKey key l) := by
  induction l with
  | nil => simp [sortByKey]
  | cons x xs ih => exact insertByKey_sorted key x (sortByKey key xs) ih

/-- The head of the key-sort is an element of minimal key. -/
theorem sortByKey_head_min (key : String → ℤ) (l : List String) (o : String)
    (rest : List String) (h : sortByKey key l = o :: rest) :
    o ∈ l ∧ ∀ y ∈ l, key o ≤ key y := by
  have hperm : List.Perm (o :: rest) l := h ▸ sortByKey_perm key l
  have hsorted := sortByKey_sorted key l
  rw [h] at hsorted
  refine ⟨hperm.subset (List.mem_cons_self o rest), ?_⟩
  intro y hy
  rcases List.mem_cons.mp (hperm.symm.subset hy) with rfl | hy'
  · exact le_refl _
  · exact (List.sorted_cons.mp hsorted).1 y hy'

/-- C7: when a user's session count is exactly at the per-user cap, a
further `create_session` evicts exactly one session of minimal creation
time, admits the new one, and leaves the user's session count at the cap.
The hypotheses are the representation invariants the `SessionManager`
maintains: the user's id set is duplicate-free, each of its ids is stored in
the session dict with that user as owner, and the new session id is fresh. -/
theorem c7_cap_evicts_oldest (cfg : SMConfig) (st : SMState) (u ip ua newSid : String)
    (now : ℤ)
    (hpos : 1 ≤ cfg.max_sessions_per_user)
    (hcap : (st.user_sessions u).length = cfg.max_sessions_per_user)
    (hnodup : (st.user_sessions u).Nodup)
    (hsync : ∀ sid ∈ st.user_sessions u,
      ∃ sd, alookup sid st.sessions = some sd ∧ sd.user_id = u)
    (hfresh : newSid ∉ st.user_sessions u) :
    ∃ oldest, oldest ∈ st.user_sessions u ∧
      (∀ y ∈ st.user_sessions u, session_created_key st oldest ≤ session_created_key st y) ∧
      ((create_session cfg st u ip ua newSid now).user_sessions u).length
        = cfg.max_sessions_per_user ∧
      newSid ∈ (create_session cfg st u ip ua newSid now).user_sessions u ∧
      (∀ y, y ∈ (create_session cfg st u ip ua newSid now).user_sessions u ↔
        (y ∈ st.user_sessions u ∧ y ≠ oldest) ∨ y = newSid) := by
  have hlenperm : (sortByKey (session_created_key st) (st.user_sessions u)).length
      = (st.user_sessions u).length :=
    (sortByKey_perm (session_created_key st) (st.user_sessions u)).length_eq
  obtain ⟨o, rest', hsortEq⟩ : ∃ o rest',
      sortByKey (session_created_key st) (st.user_sessions u) = o :: rest' := by
    cases hs : sortByKey (session_created_key st) (st.user_sessions u) with
    | nil =>
      rw [hs] at hlenperm
      rw [hcap] at hlenperm
      simp at hlenperm
      omega
    | cons a l => exact ⟨a, l, rfl⟩
  obtain ⟨ho_mem, ho_min⟩ := sortByKey_head_min _ _ _ _ hsortEq
  obtain ⟨sd, hsd, hsduid⟩ := hsync o ho_mem
  have hinv : invalidate_session st o
      = ⟨aremove o st.sessions,
         fun u' => if u' = u then (st.user_sessions u).erase o else st.user_sessions u'⟩ := by
    simp only [invalidate_session, hsd]
    rw [hsduid, if_pos ho_mem]
  have hproj : (invalidate_session st o).user_sessions u = (st.user_sessions u).erase o := by
    rw [hinv]
    simp
  have hlen2 : ((st.user_sessions u).erase o).length = cfg.max_sessions_per_user - 1 := by
    rw [List.length_erase_of_mem ho_mem, hcap]
  have hloop : evictLoop cfg u st (o :: rest') = invalidate_session st o := by
    unfold evictLoop
    rw [if_pos (le_of_eq hcap.symm)]
    cases rest' with
    | nil => rfl
    | cons r rs =>
      unfold evictLoop
      rw [if_neg (by rw [hproj, hlen2]; omega)]
  have hclean : cleanup_old_sessions cfg st u = invalidate_session st o := by
    unfold cleanup_old_sessions
    rw [hsortEq]
    exact hloop
  have hnotin : newSid ∉ (st.user_sessions u).erase o :=
    fun hmem => hfresh (List.mem_of_mem_erase hmem)
  have hcreate_proj : (create_session cfg st u ip ua newSid now).user_sessions u
      = (st.user_sessions u).erase o ++ [newSid] := by
    unfold create_session
    rw [if_pos (le_of_eq hcap.symm), hclean]
    simp only [hproj]
    simp [hnotin, hproj]
  refine ⟨o, ho_mem, ho_min, ?_, ?_, ?_⟩
  · rw [hcreate_proj, List.length_append, hlen2]
    simp
    omega
  · rw [hcreate_proj]
    simp
  · intro y
    rw [hcreate_proj]
    simp only [List.mem_append, List.mem_singleton]
    rw [List.Nodup.mem_erase_iff hnodup]
    tauto

/-- C7 witness: a user `u` at the cap of 2 with sessions `a` (created at 5)
and `b` (created at 3); creating session `c` evicts the oldest (`b`) and
keeps the count at 2. -/
theorem c7_cap_evicts_oldest_witness :
    ∃ oldest,
      oldest ∈ (⟨[("a", ⟨"u", 5, 5, "1.1.1.1", "A", true⟩),
          ("b", ⟨"u", 3, 3, "1.1.1.1", "A", true⟩)],
        fun u' => if u' = "u" then ["a", "b"] else []⟩ : SMState).user_sessions "u" ∧
      (∀ y ∈ (⟨[("a", ⟨"u", 5, 5, "1.1.1.1", "A", true⟩),
          ("b", ⟨"u", 3, 3, "1.1.1.1", "A", true⟩)],
        fun u' => if u' = "u" then ["a", "b"] else []⟩ : SMState).user_sessions "u",
        session_created_key (⟨[("a", ⟨"u", 5, 5, "1.1.1.1", "A", true⟩),
            ("b", ⟨"u", 3, 3, "1.1.1.1", "A", true⟩)],
          fun u' => if u' = "u" then ["a", "b"] else []⟩ : SMState) oldest
          ≤ session_created_key (⟨[("a", ⟨"u", 5, 5, "1.1.1.1", "A", true⟩),
            ("b", ⟨"u", 3, 3, "1.1.1.1", "A", true⟩)],
          fun u' => if u' = "u" then ["a", "b"] else []⟩ : SMState) y) ∧
      ((create_session ⟨1800, 2⟩ (⟨[("a", ⟨"u", 5, 5, "1.1.1.1", "A", true⟩),
          ("b", ⟨"u", 3, 3, "1.1.1.1", "A", true⟩)],
        fun u' => if u' = "u" then ["a", "b"] else []⟩ : SMState)
          "u" "1.1.1.1" "A" "c" 9).user_sessions "u").length = 2 ∧
      "c" ∈ (create_session ⟨1800, 2⟩ (⟨[("a", ⟨"u", 5, 5, "1.1.1.1", "A", true⟩),
          ("b", ⟨"u", 3, 3, "1.1.1.1", "A", true⟩)],
        fun u' => if u' = "u" then ["a", "b"] else []⟩ : SMState)
          "u" "1.1.1.1" "A" "c" 9).user_sessions "u" ∧
      (∀ y, y ∈ (create_session ⟨1800, 2⟩ (⟨[("a", ⟨"u", 5, 5, "1.1.1.1", "A", true⟩),
          ("b", ⟨"u", 3, 3, "1.1.1.1", "A", true⟩)],
        fun u' => if u' = "u" then ["a", "b"] else []⟩ : SMState)
          "u" "1.1.1.1" "A" "c" 9).user_sessions "u" ↔
        (y ∈ (⟨[("a", ⟨"u", 5, 5, "1.1.1.1", "A", true⟩),
            ("b", ⟨"u", 3, 3, "1.1.1.1", "A", true⟩)],
          fun u' => if u' = "u" then ["a", "b"] else []⟩ : SMState).user_sessions "u" ∧
          y ≠ oldest) ∨ y = "c") := by
  refine c7_cap_evicts_oldest ⟨1800, 2⟩
    (⟨[("a", ⟨"u", 5, 5, "1.1.1.1", "A", true⟩),
        ("b", ⟨"u", 3, 3, "1.1.1.1", "A", true⟩)],
      fun u' => if u' = "u" then ["a", "b"] else []⟩ : SMState)
    "u" "1.1.1.1" "A" "c" 9 (by decide) (by decide) (by decide) ?_ (by decide)
  intro sid hsid
  have hsid' : sid ∈ ["a", "b"] := by simpa using hsid
  rcases List.mem_cons.mp hsid' with rfl | hsid''
  · exact ⟨⟨"u", 5, 5, "1.1.1.1", "A", true⟩, by decide, by decide⟩
  · rcases List.mem_cons.mp hsid'' with rfl | h0
    · exact ⟨⟨"u", 3, 3, "1.1.1.1", "A", true⟩, by decide, by decide⟩
    · simp at h0
